import Mathlib

/-!
# Verification of the log_processor repository

Shallow embedding of `src/log_processor/log_processor.py` and proofs about the
claims of its specification.

Modelling conventions:
* Python text is modelled as `List Char`; a file is the list of lines that
  Python's line iteration yields (each line includes its trailing newline
  character, except possibly the last line of the file).
* Python `float` values are modelled as exact rationals (`ℚ`); the model covers
  the finite decimal grammar of `float(str)` (sign, digits with single
  underscores between digits, optional fraction and exponent); the special
  values `inf`/`nan` are outside the model.
* Fallible Python code is modelled with `Except PyErr`; an uncaught Python
  exception is an `Except.error`.
* `collections.Counter` is modelled as an insertion-ordered association list
  with `dict` update semantics: assignment to an existing key keeps its
  position, a new key is appended at the end.
-/

/-- A Python string, as a list of characters. -/
abbrev Line := List Char

/-- A log file, as the list of lines Python's line iteration yields. -/
abbrev PyFile := List Line

/-- The Python exceptions that can escape the embedded code. -/
inductive PyErr where
  | valueError
  | typeError
  | zeroDivisionError
  | noEntriesFound
  | noTimeElapsed
deriving DecidableEq

/-- Python `line.split(' ')`: split at every single space character,
producing (possibly empty) pieces. -/
def pySplitSpace : List Char → List (List Char)
  | [] => [[]]
  | c :: cs =>
    match pySplitSpace cs with
    | [] => [[c]]
    | t :: ts => if c = ' ' then [] :: t :: ts else (c :: t) :: ts

/-- The tokenization of `parse_line`:
`[value for value in line.split(' ') if value]`. -/
def pyFields (line : Line) : List (List Char) :=
  (pySplitSpace line).filter (fun t => t ≠ [])

/-- The ASCII whitespace characters stripped by Python's `str.strip()`. -/
def isPySpace (c : Char) : Bool :=
  c = ' ' || c = '\t' || c = '\n' || c = '\r' || c = '\x0b' || c = '\x0c'

/-- Python `str.strip()` (ASCII whitespace). -/
def pyStrip (l : List Char) : List Char :=
  ((l.dropWhile isPySpace).reverse.dropWhile isPySpace).reverse

/-- Continue reading a run of decimal digits in which single underscores may
occur between digits, accumulating the value and the number of digits read. -/
def digitsCore : ℕ → ℕ → List Char → Option (ℕ × ℕ)
  | acc, cnt, [] => some (acc, cnt)
  | acc, cnt, c :: cs =>
    if c.isDigit then digitsCore (10 * acc + (c.toNat - 48)) (cnt + 1) cs
    else if c = '_' then
      match cs with
      | [] => none
      | d :: cs2 =>
        if d.isDigit then digitsCore (10 * acc + (d.toNat - 48)) (cnt + 1) cs2
        else none
    else none

/-- A nonempty run of decimal digits (single underscores allowed between
digits), returning its value and digit count; `none` when malformed. -/
def pyDigitsC : List Char → Option (ℕ × ℕ)
  | [] => none
  | c :: cs => if c.isDigit then digitsCore (c.toNat - 48) 1 cs else none

/-- The value of a digit run, forgetting the digit count. -/
def pyDigits (l : List Char) : Option ℕ :=
  (pyDigitsC l).map (fun p => p.1)

/-- Python `int(str)`: strip whitespace, optional sign, decimal digits.
`none` models the `ValueError` raised on malformed input. -/
def pyInt (l : Line) : Option ℤ :=
  match pyStrip l with
  | '+' :: rest => (pyDigits rest).map Int.ofNat
  | '-' :: rest => (pyDigits rest).map (fun n => -(n : ℤ))
  | rest => (pyDigits rest).map Int.ofNat

/-- Split a list at the first character satisfying `p`; the second component
is `none` when no such character occurs. -/
def splitFirst (p : Char → Bool) : List Char → List Char × Option (List Char)
  | [] => ([], none)
  | c :: cs =>
    if p c then ([], some cs)
    else
      match splitFirst p cs with
      | (a, b) => (c :: a, b)

/-- The mantissa of a Python float literal: `digits`, `digits.`, `.digits` or
`digits.digits`, each digit run possibly containing underscores. -/
def pyMantissa (l : List Char) : Option ℚ :=
  match splitFirst (fun c => c = '.') l with
  | (ip, none) => (pyDigitsC ip).map (fun p => (p.1 : ℚ))
  | (ip, some fp) =>
    match ip, fp with
    | [], [] => none
    | [], _ :: _ => (pyDigitsC fp).map (fun p => (p.1 : ℚ) / 10 ^ p.2)
    | _ :: _, [] => (pyDigitsC ip).map (fun p => (p.1 : ℚ))
    | _ :: _, _ :: _ =>
      match pyDigitsC ip, pyDigitsC fp with
      | some pi, some pf => some ((pi.1 : ℚ) + (pf.1 : ℚ) / 10 ^ pf.2)
      | _, _ => none

/-- The exponent part of a Python float literal: optional sign and digits. -/
def pyExp (l : List Char) : Option ℤ :=
  match l with
  | '+' :: rest => (pyDigits rest).map Int.ofNat
  | '-' :: rest => (pyDigits rest).map (fun n => -(n : ℤ))
  | rest => (pyDigits rest).map Int.ofNat

/-- The body of a Python float literal after sign removal:
mantissa with optional `e`/`E` exponent. -/
def pyFloatBody (l : List Char) : Option ℚ :=
  match splitFirst (fun c => c = 'e' || c = 'E') l with
  | (mant, none) => pyMantissa mant
  | (mant, some ex) =>
    match pyMantissa mant, pyExp ex with
    | some m, some e => some (m * (10 : ℚ) ^ e)
    | _, _ => none

/-- Python `float(str)` restricted to finite decimal literals: strip
whitespace, optional sign, mantissa and optional exponent.  `none` models the
`ValueError` raised on malformed input. -/
def pyFloat (l : Line) : Option ℚ :=
  match pyStrip l with
  | '+' :: rest => pyFloatBody rest
  | '-' :: rest => (pyFloatBody rest).map Neg.neg
  | rest => pyFloatBody rest

/-- The `LogEntry` class: one successfully parsed log line. -/
structure LogEntry where
  timestamp : ℚ
  response_header_size : ℤ
  client_ip : Line
  http_response_code : Line
  response_size : ℤ
  http_request_method : Line
  url : Line
  username : Line
  access_type : Line
  response_type : Line
deriving DecidableEq

/-- The method `LogEntryParser.parse_line`: tokenize on single spaces discarding empty
tokens; fewer or more than 10 tokens yields no record (`.ok none`); with
exactly 10 tokens the numeric conversions `float(fields[0])`,
`int(fields[1])`, `int(fields[4])` are attempted, and a conversion failure is
an uncaught `ValueError` (`.error`). -/
def parse_line (line : Line) : Except PyErr (Option LogEntry) :=
  let fields := pyFields line
  if fields.length ≠ 10 then .ok none
  else
    match pyFloat (fields.getD 0 []), pyInt (fields.getD 1 []),
          pyInt (fields.getD 4 []) with
    | some ts, some hdr, some sz =>
      .ok (some
        { timestamp := ts
          response_header_size := hdr
          client_ip := fields.getD 2 []
          http_response_code := fields.getD 3 []
          response_size := sz
          http_request_method := fields.getD 5 []
          url := fields.getD 6 []
          username := fields.getD 7 []
          access_type := fields.getD 8 []
          response_type := fields.getD 9 [] })
    | _, _, _ => .error .valueError

/-- An insertion-ordered counter (the model of `collections.Counter`):
keys in first-insertion order, each with its count. -/
abbrev IpCounter := List (Line × ℕ)

/-- Python `counter[k] += n`: bump an existing key in place, or append a new key. -/
def counterAdd : IpCounter → Line → ℕ → IpCounter
  | [], k, n => [(k, n)]
  | (k', m) :: rest, k, n =>
    if k' = k then (k', m + n) :: rest else (k', m) :: counterAdd rest k n

/-- Python `Counter.update(other)`: add the other counter key-wise; existing keys
keep their position, new keys are appended in the other counter's order. -/
def counterUpdate (self other : IpCounter) : IpCounter :=
  other.foldl (fun acc p => counterAdd acc p.1 p.2) self

/-- Stable insertion (by descending count) used to model the stable sort
underlying `Counter.most_common`. -/
def insertByCountDesc (x : Line × ℕ) : List (Line × ℕ) → List (Line × ℕ)
  | [] => [x]
  | y :: ys => if y.2 ≤ x.2 then x :: y :: ys else y :: insertByCountDesc x ys

/-- Python `Counter.most_common()`: the counter items sorted by descending count
with a stable sort (CPython sorts with `sorted(..., reverse=True)`, which
keeps insertion order among equal counts). -/
def sortByCountDesc : List (Line × ℕ) → List (Line × ℕ)
  | [] => []
  | x :: xs => insertByCountDesc x (sortByCountDesc xs)

/-- The argparse flags relevant to the core (`--mfip --lfip --eps --bytes`). -/
structure Args where
  mfip : Bool
  lfip : Bool
  eps : Bool
  bytes : Bool
deriving DecidableEq

/-- The mutable attributes of a `LogProcessor` instance. -/
structure PState where
  ip_counter : IpCounter
  earliest_timestamp : Option ℚ
  latest_timestamp : Option ℚ
  entries_count : ℕ
  total_bytes : ℤ
deriving DecidableEq

/-- The state set up by `LogProcessor.__init__`. -/
def initState : PState :=
  { ip_counter := []
    earliest_timestamp := none
    latest_timestamp := none
    entries_count := 0
    total_bytes := 0 }

/-- The local counters of one `process_file` call. -/
structure LocalState where
  ip_counter : IpCounter
  entries : ℕ
  bytes : ℤ
  earliest : Option ℚ
  latest : Option ℚ
deriving DecidableEq

/-- The local counters before the line loop of `process_file` starts. -/
def initLocal : LocalState :=
  { ip_counter := [], entries := 0, bytes := 0, earliest := none, latest := none }

/-- The body of the line loop of `process_file` for one valid record. -/
def stepEntry (args : Args) (loc : LocalState) (e : LogEntry) : LocalState :=
  let loc := { loc with entries := loc.entries + 1 }
  let loc :=
    if args.mfip || args.lfip then
      { loc with ip_counter := counterAdd loc.ip_counter e.client_ip 1 }
    else loc
  let loc :=
    if args.eps then
      { loc with
        earliest :=
          match loc.earliest with
          | none => some e.timestamp
          | some t => if e.timestamp < t then some e.timestamp else some t
        latest :=
          match loc.latest with
          | none => some e.timestamp
          | some t => if t < e.timestamp then some e.timestamp else some t }
    else loc
  if args.bytes then
    { loc with bytes := loc.bytes + (e.response_header_size + e.response_size) }
  else loc

/-- The line loop of `process_file`: parse each line, skip `None` results,
fold valid records into the local counters; an uncaught parse exception
aborts the loop. -/
def scanLines (args : Args) : List Line → LocalState → Except PyErr LocalState
  | [], loc => .ok loc
  | line :: rest, loc =>
    match parse_line line with
    | .error e => .error e
    | .ok none => scanLines args rest loc
    | .ok (some entry) => scanLines args rest (stepEntry args loc entry)

/-- The earliest-timestamp merge of `process_file`:
`if self.earliest_timestamp is None or local < self.earliest_timestamp`.
When the shared bound is set and the local bound is `None`, the Python
comparison `None < float` raises a `TypeError`. -/
def mergeEarliest (shared loc : Option ℚ) : Except PyErr (Option ℚ) :=
  match shared with
  | none => .ok loc
  | some s =>
    match loc with
    | none => .error .typeError
    | some l => .ok (if l < s then some l else some s)

/-- The latest-timestamp merge of `process_file`, with `>` in place of `<`. -/
def mergeLatest (shared loc : Option ℚ) : Except PyErr (Option ℚ) :=
  match shared with
  | none => .ok loc
  | some s =>
    match loc with
    | none => .error .typeError
    | some l => .ok (if s < l then some l else some s)

/-- The method `LogProcessor.process_file`: scan the file into local counters, then
merge them into the shared state (sums, `Counter.update`, and — when `--eps`
is set — the min/max timestamp merges, which can raise `TypeError`). -/
def process_file (args : Args) (st : PState) (file : PyFile) :
    Except PyErr PState :=
  match scanLines args file initLocal with
  | .error e => .error e
  | .ok loc =>
    let st1 : PState :=
      { st with
        entries_count := st.entries_count + loc.entries
        total_bytes := st.total_bytes + loc.bytes
        ip_counter := counterUpdate st.ip_counter loc.ip_counter }
    if args.eps then
      match mergeEarliest st1.earliest_timestamp loc.earliest with
      | .error e => .error e
      | .ok ne =>
        match mergeLatest st1.latest_timestamp loc.latest with
        | .error e => .error e
        | .ok nl =>
          .ok { st1 with earliest_timestamp := ne, latest_timestamp := nl }
    else .ok st1

/-- The file loop of `process_logs`, starting from a given state.  The
existence check and `FileNotFoundError` are out of the model: a `PyFile`
stands for an existing file's contents. -/
def process_logs_from (args : Args) : List PyFile → PState → Except PyErr PState
  | [], st => .ok st
  | f :: fs, st =>
    match process_file args st f with
    | .error e => .error e
    | .ok st' => process_logs_from args fs st'

/-- The method `LogProcessor.process_logs` on a freshly constructed processor. -/
def process_logs (args : Args) (files : List PyFile) : Except PyErr PState :=
  process_logs_from args files initState

/-- The truthiness of an optional float, as used by
`if not self.earliest_timestamp ...`: `None` and `0.0` are falsy. -/
def pyTruthy : Option ℚ → Bool
  | none => false
  | some q => decide (q ≠ 0)

/-- Round a rational to the nearest integer, halves to even
(the rounding of Python's `round`, idealized to exact rationals). -/
def roundHalfEven (q : ℚ) : ℤ :=
  let n := ⌊q⌋
  let r := q - n
  if r < 1 / 2 then n
  else if 1 / 2 < r then n + 1
  else if n % 2 = 0 then n else n + 1

/-- Python `round(x, 2)` on the exact-rational model of floats. -/
def round2 (q : ℚ) : ℚ :=
  (roundHalfEven (q * 100) : ℚ) / 100

/-- The result dictionary of `get_results`; an outer `none` means the key is
absent, and for the IP metrics the inner `Option` is Python's `None` value. -/
structure ResultMap where
  mfip : Option (Option (Line × ℕ))
  lfip : Option (Option (Line × ℕ))
  eps : Option ℚ
  bytes : Option ℤ
deriving DecidableEq

/-- Python `self.ip_counter.most_common(1)[0] if self.ip_counter else None`. -/
def mfipResult (st : PState) : Option (Line × ℕ) :=
  if st.ip_counter = [] then none else (sortByCountDesc st.ip_counter).head?

/-- Python `self.ip_counter.most_common()[-1] if self.ip_counter else None`. -/
def lfipResult (st : PState) : Option (Line × ℕ) :=
  if st.ip_counter = [] then none else (sortByCountDesc st.ip_counter).getLast?

/-- The `--eps` branch of `get_results`: `NoEntriesFoundError` on a zero
entry count; `NoTimeElapsedError` when either timestamp is falsy (`None` or
`0.0`); otherwise `entries / (latest - earliest)`, which is an uncaught
`ZeroDivisionError` when the two set timestamps are equal. -/
def epsResult (st : PState) : Except PyErr ℚ :=
  if st.entries_count = 0 then .error .noEntriesFound
  else if !pyTruthy st.earliest_timestamp || !pyTruthy st.latest_timestamp then
    .error .noTimeElapsed
  else
    let e := st.earliest_timestamp.getD 0
    let l := st.latest_timestamp.getD 0
    if l - e = 0 then .error .zeroDivisionError
    else .ok (round2 ((st.entries_count : ℚ) / (l - e)))

/-- The method `LogProcessor.get_results`, as a state transformer: the returned state is
the processor state after the call (the method never assigns to `self`, so
every branch returns the input state unchanged). -/
def get_results (args : Args) (st : PState) :
    Except PyErr ResultMap × PState :=
  (let r1 : ResultMap :=
    { mfip := if args.mfip then some (mfipResult st) else none
      lfip := if args.lfip then some (lfipResult st) else none
      eps := none
      bytes := if args.bytes then some st.total_bytes else none }
  if args.eps then
    match epsResult st with
    | .error e => .error e
    | .ok q => .ok { r1 with eps := some q }
  else .ok r1, st)

/-! ## Specification-side definitions

These definitions follow the wording of the (amended) specification and are
compared with the code-side definitions above. -/

/-- Helper for `spaceRuns`: the current partial token is carried reversed. -/
def spaceRunsAux : List Char → List Char → List (List Char)
  | cur, [] => if cur = [] then [] else [cur.reverse]
  | cur, c :: cs =>
    if c = ' ' then
      if cur = [] then spaceRunsAux [] cs else cur.reverse :: spaceRunsAux [] cs
    else spaceRunsAux (c :: cur) cs

/-- Amended-spec tokenization: split the line on maximal runs of space
characters (U+0020 only), discarding empty tokens. -/
def spaceRuns (l : List Char) : List (List Char) :=
  spaceRunsAux [] l

/-- Amended-spec least-frequent entry: the pair of lowest count, preferring
the last-encountered among entries of equal minimal count; `none` when the
counter is empty. -/
def lastMin : List (Line × ℕ) → Option (Line × ℕ)
  | [] => none
  | x :: xs =>
    some
      (match lastMin xs with
       | none => x
       | some y => if y.2 ≤ x.2 then y else x)

/-- The byte contribution of one line: `responseHeaderSize + responseSize`
for a valid record, `0` otherwise. -/
def lineBytes (line : Line) : ℤ :=
  match parse_line line with
  | .ok (some e) => e.response_header_size + e.response_size
  | _ => 0

/-- The sum of the byte contributions of a file's lines. -/
def fileBytes (f : PyFile) : ℤ :=
  (f.map lineBytes).sum

/-! ## Concrete inputs used by the claims -/

/-- Flag set requesting only events per second. -/
def argsEps : Args := ⟨false, false, true, false⟩

/-- Flag set requesting only the least frequent IP. -/
def argsLfip : Args := ⟨false, true, false, false⟩

/-- Flag set requesting only total bytes. -/
def argsBytes : Args := ⟨false, false, false, true⟩

/-- Flag set of the end-to-end scenario: most frequent IP, events per second
and total bytes. -/
def argsC7 : Args := ⟨true, false, true, true⟩

/-- A valid log line with timestamp 1000.0, header size 200, response size
500 from 10.0.0.1. -/
def line1000 : Line := "1000.0 200 10.0.0.1 200 500 GET /a user1 x y\n".toList

/-- A valid log line with timestamp 1002.0, header size 150, response size
300 from 10.0.0.2. -/
def line1002 : Line := "1002.0 150 10.0.0.2 200 300 GET /b user2 x y\n".toList

/-- A valid log line with timestamp 0.0. -/
def lineT0 : Line := "0.0 1 10.0.0.1 200 1 GET /a u x y\n".toList

/-- A valid log line with timestamp 2.0. -/
def lineT2 : Line := "2.0 1 10.0.0.2 200 1 GET /a u x y\n".toList

/-- A malformed line (one token), which the parser skips. -/
def badLine : Line := "garbage\n".toList

/-- A well-shaped line whose first token is not a number. -/
def badNumLine : Line := "abc 1 10.0.0.1 200 2 GET / u x y\n".toList

/-- A well-shaped line whose header-size token is the negative integer -5. -/
def negLine : Line := "1000.0 -5 10.0.0.1 200 3 GET / u x y\n".toList

/-- A line whose 10 fields are separated by tab characters. -/
def tabLine : Line := "1000.0\t200\t10.0.0.1\t200\t500\tGET\t/a\tuser1\tx\ty\n".toList

/-- A valid log line from 10.0.0.1, count-tie partner of `lineIpB`. -/
def lineIpA : Line := "1000.0 1 10.0.0.1 200 1 GET / u x y\n".toList

/-- A valid log line from 10.0.0.2, count-tie partner of `lineIpA`. -/
def lineIpB : Line := "1001.0 1 10.0.0.2 200 1 GET / u x y\n".toList

/-- The accumulated state after processing `[line1000]` with `argsEps`. -/
def stOneTs : PState := ⟨[], some 1000, some 1000, 1, 0⟩

/-- The accumulated state after processing `[lineT0, lineT2]` with
`argsEps`. -/
def stZeroStart : PState := ⟨[], some 0, some 2, 2, 0⟩

/-- The accumulated state of the end-to-end scenario. -/
def st7 : PState :=
  ⟨[("10.0.0.1".toList, 2), ("10.0.0.2".toList, 1)], some 1000, some 1002, 3, 1850⟩

/-- The accumulated state after processing `[lineIpA, lineIpB]` with
`argsLfip`. -/
def st4 : PState := ⟨[("10.0.0.1".toList, 1), ("10.0.0.2".toList, 1)], none, none, 2, 0⟩

/-- The result map the code produces from `st4` with `argsLfip`. -/
def res4 : ResultMap := ⟨none, some (some ("10.0.0.2".toList, 1)), none, none⟩

/-- The accumulated state after processing `[negLine]` with `argsBytes`. -/
def stNeg : PState := ⟨[], none, none, 1, -2⟩

/-! ## Claim theorems -/

/-- C1 (code bug evaluation): with events-per-second requested, a run whose
only record has the single timestamp 1000.0 ends in an uncaught
`ZeroDivisionError` rather than `NoTimeElapsed`, and a run with timestamps
0.0 and 2.0 (span 2, two entries) fails with `NoTimeElapsed` rather than
returning 1.0: the code tests the truthiness of the timestamps instead of
the span. -/
theorem c1_eps_error_evaluation :
    (process_logs argsEps [[line1000]] = .ok stOneTs ∧
      (get_results argsEps stOneTs).1 = .error .zeroDivisionError) ∧
    (process_logs argsEps [[lineT0, lineT2]] = .ok stZeroStart ∧
      (get_results argsEps stZeroStart).1 = .error .noTimeElapsed) := by
  refine ⟨⟨?_, ?_⟩, ?_, ?_⟩ <;> with_unfolding_all rfl

/-- C3 (code bug evaluation): after a file whose one record has timestamp
1000.0, processing a further file with zero valid records raises `TypeError`
in the merge step (`None < float`), instead of leaving the shared timestamp
bounds unchanged. -/
theorem c3_merge_none_type_error :
    process_logs argsEps [[line1000]] = .ok stOneTs ∧
    process_file argsEps stOneTs [badLine] = .error .typeError := by
  refine ⟨?_, ?_⟩ <;> with_unfolding_all rfl

/-- C6 (code bug evaluation): with events-per-second requested, processing
the file pair in the order [valid, malformed] raises `TypeError` while the
order [malformed, valid] completes, so completion is not order-independent. -/
theorem c6_order_dependence :
    process_logs argsEps [[line1000], [badLine]] = .error .typeError ∧
    process_logs argsEps [[badLine], [line1000]] = .ok stOneTs := by
  refine ⟨?_, ?_⟩ <;> with_unfolding_all rfl

/-- C7: the end-to-end scenario: the three-line file yields most frequent IP
(10.0.0.1, 2), events per second 3/2 = 1.5 and total bytes 1850. -/
theorem c7_end_to_end :
    process_logs argsC7 [[line1000, line1002, line1000]] = .ok st7 ∧
    (get_results argsC7 st7).1 =
      .ok ⟨some (some ("10.0.0.1".toList, 2)), none, some (3 / 2), some 1850⟩ := by
  refine ⟨?_, ?_⟩ <;> with_unfolding_all rfl

/-- C2 (counterexample): a line that splits into exactly 10 non-empty tokens
whose first token is not a number makes `parse_line` raise `ValueError`
instead of returning a record or a no-record outcome. -/
theorem c2_counterexample :
    (pyFields badNumLine).length = 10 ∧
    parse_line badNumLine = .error .valueError := by
  refine ⟨?_, ?_⟩ <;> with_unfolding_all rfl

/-- C5 (counterexample): a line whose 10 fields are separated by tabs
produces no record (the code splits on spaces only), and the final token of a
space-separated line retains its trailing newline. -/
theorem c5_counterexample :
    parse_line tabLine = .ok none ∧
    (pyFields line1000).getLast? = some "y\n".toList ∧
    "y\n".toList ≠ "y".toList := by
  refine ⟨?_, ?_, ?_⟩ <;> with_unfolding_all first | rfl | decide

/-- C9 (counterexample): `parse_line` accepts a negative byte-count token and
produces a record whose `responseHeaderSize` is the negative integer -5. -/
theorem c9_counterexample :
    (parse_line negLine).map (fun o => o.map (fun e => e.response_header_size)) =
      .ok (some (-5)) ∧ (-5 : ℤ) < 0 := by
  refine ⟨?_, ?_⟩
  · with_unfolding_all rfl
  · decide

/-- C4 (counterexample): with IPs 10.0.0.1 then 10.0.0.2 both of count 1,
`get_results` returns (10.0.0.2, 1) as least frequent — the last-encountered
among the minimum-count IPs — not the first-encountered (10.0.0.1, 1) the
claim demands. -/
theorem c4_counterexample :
    process_logs argsLfip [[lineIpA, lineIpB]] = .ok st4 ∧
    (get_results argsLfip st4).1 = .ok res4 ∧
    res4.lfip = some (some ("10.0.0.2".toList, 1)) ∧
    ("10.0.0.2".toList, (1 : ℕ)) ≠ ("10.0.0.1".toList, (1 : ℕ)) := by
  refine ⟨?_, ?_, ?_, ?_⟩
  · with_unfolding_all rfl
  · with_unfolding_all rfl
  · rfl
  · decide

/-- C10: `get_results` never mutates the accumulated state: the state after a
call (whether the call returns a result map or an error) is the input state,
and a second call from the post-call state gives the same outcome. -/
theorem c10_get_results_pure (args : Args) (st : PState) :
    (get_results args st).2 = st ∧
    (get_results args ((get_results args st).2)).1 = (get_results args st).1 :=
  ⟨rfl, rfl⟩

/-- C8: whenever a run completes with events-per-second requested and zero
valid records accumulated, `get_results` fails with `NoEntriesFound`. -/
theorem c8_no_entries_found (args : Args) (files : List PyFile) (st : PState)
    (he : args.eps = true) (_hrun : process_logs args files = .ok st)
    (h0 : st.entries_count = 0) :
    (get_results args st).1 = .error .noEntriesFound := by
  simp [get_results, he, epsResult, h0]

/-- Witness for `c8_no_entries_found` at the empty run. -/
theorem c8_no_entries_found_witness :
    argsEps.eps = true ∧ process_logs argsEps [] = .ok initState ∧
    initState.entries_count = 0 ∧
    (get_results argsEps initState).1 = .error .noEntriesFound :=
  ⟨rfl, rfl, rfl, c8_no_entries_found argsEps [] initState rfl rfl rfl⟩

/-- C2 (amended): for every input line, `parse_line` returns either a record
or a no-record outcome without raising — except that a line splitting into
exactly 10 non-empty tokens in which token 0 fails to parse as a float, or
token 1 or token 4 fails to parse as an integer, raises `ValueError`. -/
theorem c2_amended_parse_total (line : Line) :
    if (pyFields line).length = 10 ∧
        (pyFloat ((pyFields line).getD 0 []) = none ∨
         pyInt ((pyFields line).getD 1 []) = none ∨
         pyInt ((pyFields line).getD 4 []) = none) then
      parse_line line = .error .valueError
    else ∃ r, parse_line line = .ok r := by
  by_cases hl : (pyFields line).length = 10
  · by_cases hfail : pyFloat ((pyFields line).getD 0 []) = none ∨
        pyInt ((pyFields line).getD 1 []) = none ∨
        pyInt ((pyFields line).getD 4 []) = none
    · rw [if_pos ⟨hl, hfail⟩]
      simp only [parse_line]
      rw [if_neg (not_not_intro hl)]
      rcases h0 : pyFloat ((pyFields line).getD 0 []) with _ | ts <;>
        rcases h1 : pyInt ((pyFields line).getD 1 []) with _ | hdr <;>
        rcases h4 : pyInt ((pyFields line).getD 4 []) with _ | sz <;>
        first
          | rfl
          | (exfalso; rw [h0, h1, h4] at hfail; simp at hfail)
    · rw [if_neg (fun h => hfail h.2)]
      obtain ⟨ts, h0⟩ := Option.ne_none_iff_exists'.mp
        (fun h => hfail (Or.inl h))
      obtain ⟨hdr, h1⟩ := Option.ne_none_iff_exists'.mp
        (fun h => hfail (Or.inr (Or.inl h)))
      obtain ⟨sz, h4⟩ := Option.ne_none_iff_exists'.mp
        (fun h => hfail (Or.inr (Or.inr h)))
      exact ⟨_, by simp only [parse_line]; rw [if_neg (not_not_intro hl), h0, h1, h4]⟩
  · rw [if_neg (fun h => hl h.1)]
    exact ⟨none, by simp only [parse_line]; exact if_pos hl⟩

/-- The split `pySplitSpace` always produces at least one piece. -/
theorem pySplitSpace_ne_nil : ∀ l : List Char, pySplitSpace l ≠ []
  | [] => by simp [pySplitSpace]
  | c :: cs => by
    simp only [pySplitSpace]
    rcases pySplitSpace cs with _ | ⟨t, ts⟩
    · simp
    · by_cases hc : c = ' ' <;> simp [hc]

/-- The helper `spaceRunsAux cur l` is the filtered space-split of `l` with the pending
token `cur` (stored reversed) prepended to the first piece. -/
theorem spaceRunsAux_eq (l : List Char) : ∀ cur : List Char,
    spaceRunsAux cur l =
      ((pySplitSpace l).modifyHead (fun t => cur.reverse ++ t)).filter
        (fun t => t ≠ []) := by
  induction l with
  | nil =>
    intro cur
    simp only [spaceRunsAux, pySplitSpace, List.modifyHead, List.append_nil,
      List.filter]
    by_cases h : cur = []
    · simp [h]
    · have h' : cur.reverse ≠ [] := by simpa using h
      simp [h, h']
  | cons c cs ih =>
    intro cur
    rcases hs : pySplitSpace cs with _ | ⟨t, ts⟩
    · exact absurd hs (pySplitSpace_ne_nil cs)
    · by_cases hc : c = ' '
      · simp only [spaceRunsAux, pySplitSpace, hs, if_pos hc, ih []]
        by_cases h : cur = []
        · have h' : cur.reverse ++ ([] : List Char) = [] := by simp [h]
          simp [h, hs, h', List.filter]
        · have h' : cur.reverse ≠ [] := by simpa using h
          simp [h, hs, h', List.filter]
      · simp only [spaceRunsAux, pySplitSpace, hs, if_neg hc, ih (c :: cur)]
        simp [List.filter, List.append_assoc]

/-- C5 (amended): the parser's tokenization equals splitting the line on
maximal runs of space characters (U+0020 only) and discarding empty tokens;
tabs and newlines are not separators and may remain inside tokens. -/
theorem c5_amended_space_tokenization (line : Line) :
    pyFields line = spaceRuns line := by
  rcases hs : pySplitSpace line with _ | ⟨t, ts⟩
  · exact absurd hs (pySplitSpace_ne_nil line)
  · rw [pyFields, spaceRuns, spaceRunsAux_eq, hs]
    simp [List.modifyHead]

/-- Stable insertion never produces the empty list. -/
theorem insertByCountDesc_ne_nil (x : Line × ℕ) :
    ∀ s, insertByCountDesc x s ≠ []
  | [] => by simp [insertByCountDesc]
  | y :: ys => by
    by_cases h : y.2 ≤ x.2 <;> simp [insertByCountDesc, h]

/-- Membership in a stable insertion. -/
theorem mem_insertByCountDesc (a x : Line × ℕ) (s : List (Line × ℕ)) :
    a ∈ insertByCountDesc x s ↔ a = x ∨ a ∈ s := by
  induction s with
  | nil => simp [insertByCountDesc]
  | cons y ys ih =>
    by_cases h : y.2 ≤ x.2 <;> simp [insertByCountDesc, h, List.mem_cons, ih]
    tauto

/-- Stable insertion preserves the descending-count ordering. -/
theorem pairwise_insertByCountDesc (x : Line × ℕ) (s : List (Line × ℕ))
    (hp : List.Pairwise (fun a b => b.2 ≤ a.2) s) :
    List.Pairwise (fun a b => b.2 ≤ a.2) (insertByCountDesc x s) := by
  induction s with
  | nil => simp [insertByCountDesc]
  | cons y ys ih =>
    rw [List.pairwise_cons] at hp
    by_cases h : y.2 ≤ x.2
    · simp only [insertByCountDesc, if_pos h]
      refine List.pairwise_cons.mpr ⟨?_, List.pairwise_cons.mpr hp⟩
      intro b hb
      rcases List.mem_cons.mp hb with rfl | hbys
      · exact h
      · exact le_trans (hp.1 b hbys) h
    · simp only [insertByCountDesc, if_neg h]
      refine List.pairwise_cons.mpr ⟨?_, ih hp.2⟩
      intro b hb
      rcases (mem_insertByCountDesc b x ys).mp hb with rfl | hbys
      · exact le_of_not_le h
      · exact hp.1 b hbys

/-- The model of `most_common` is sorted by descending count. -/
theorem pairwise_sortByCountDesc :
    ∀ l, List.Pairwise (fun a b : Line × ℕ => b.2 ≤ a.2) (sortByCountDesc l)
  | [] => by simp [sortByCountDesc]
  | x :: xs => by
    simp only [sortByCountDesc]
    exact pairwise_insertByCountDesc x _ (pairwise_sortByCountDesc xs)

/-- In a descending-sorted nonempty list the last element is below the head. -/
theorem getLast?_head_le {y z : Line × ℕ} {ys : List (Line × ℕ)}
    (hp : List.Pairwise (fun a b => b.2 ≤ a.2) (y :: ys))
    (hz : (y :: ys).getLast? = some z) : z.2 ≤ y.2 := by
  have hmem : z ∈ y :: ys := by
    rcases List.mem_getLast?_eq_getLast (by rw [hz]; rfl) with ⟨h, hzl⟩
    rw [hzl]
    exact List.getLast_mem h
  rcases List.mem_cons.mp hmem with rfl | hzys
  · exact le_refl _
  · exact (List.pairwise_cons.mp hp).1 z hzys

/-- Dropping the head does not change the last element of a list with a
nonempty tail. -/
theorem getLast?_cons_of_ne_nil (y : Line × ℕ) {l : List (Line × ℕ)}
    (h : l ≠ []) : (y :: l).getLast? = l.getLast? := by
  cases l with
  | nil => exact absurd rfl h
  | cons a as => rw [List.getLast?_cons_cons]

/-- The last element of a stable insertion into a descending-sorted list:
the inserted element only when it is strictly below the previous minimum. -/
theorem getLast?_insertByCountDesc (x : Line × ℕ) (s : List (Line × ℕ))
    (hp : List.Pairwise (fun a b => b.2 ≤ a.2) s) :
    (insertByCountDesc x s).getLast? =
      some
        (match s.getLast? with
         | none => x
         | some z => if x.2 < z.2 then x else z) := by
  induction s with
  | nil => simp [insertByCountDesc]
  | cons y ys ih =>
    by_cases h : y.2 ≤ x.2
    · simp only [insertByCountDesc, if_pos h]
      rw [List.getLast?_cons_cons]
      rcases hz : (y :: ys).getLast? with _ | z
      · simp at hz
      · have hzy := getLast?_head_le hp hz
        have hnlt : ¬ x.2 < z.2 := not_lt.mpr (le_trans hzy h)
        simp [hnlt]
    · simp only [insertByCountDesc, if_neg h]
      have hp' := (List.pairwise_cons.mp hp).2
      rw [getLast?_cons_of_ne_nil y (insertByCountDesc_ne_nil x ys), ih hp']
      rcases hys : ys.getLast? with _ | z
      · have : ys = [] := by simpa using hys
        subst this
        have hlt : x.2 < y.2 := not_le.mp h
        simp [hlt]
      · rcases ys with _ | ⟨w2, ws2⟩
        · simp at hys
        · rw [List.getLast?_cons_cons, hys]

/-- The model of `most_common` is empty only for the empty counter. -/
theorem sortByCountDesc_eq_nil (l : List (Line × ℕ)) :
    sortByCountDesc l = [] ↔ l = [] := by
  cases l with
  | nil => simp [sortByCountDesc]
  | cons x xs => simp [sortByCountDesc, insertByCountDesc_ne_nil]

/-- The last element of the model of `most_common` is the last-encountered
minimum-count entry. -/
theorem getLast?_sortByCountDesc :
    ∀ l, (sortByCountDesc l).getLast? = lastMin l
  | [] => by simp [sortByCountDesc, lastMin]
  | x :: xs => by
    simp only [sortByCountDesc]
    rw [getLast?_insertByCountDesc x _ (pairwise_sortByCountDesc xs),
      getLast?_sortByCountDesc xs]
    simp only [lastMin]
    rcases lastMin xs with _ | y
    · rfl
    · by_cases h : y.2 ≤ x.2
      · simp [h, not_lt.mpr h]
      · simp [h, not_le.mp h]

/-- The selector `lastMin` returns an entry of minimal count. -/
theorem lastMin_le :
    ∀ l (y : Line × ℕ), lastMin l = some y → ∀ p ∈ l, y.2 ≤ p.2
  | [], y => by simp [lastMin]
  | x :: xs, y => by
    intro hy p hp
    simp only [lastMin] at hy
    rcases hlm : lastMin xs with _ | z
    · have hxs : xs = [] := by
        cases xs with
        | nil => rfl
        | cons a as => simp [lastMin] at hlm
      subst hxs
      rw [hlm] at hy
      simp at hy
      subst hy
      rcases List.mem_cons.mp hp with rfl | hpn
      · exact le_refl _
      · simp at hpn
    · rw [hlm] at hy
      have hy' : (if z.2 ≤ x.2 then z else x) = y := by simpa using hy
      by_cases h : z.2 ≤ x.2
      · rw [if_pos h] at hy'
        subst hy'
        rcases List.mem_cons.mp hp with rfl | hpxs
        · exact h
        · exact lastMin_le xs z hlm p hpxs
      · rw [if_neg h] at hy'
        subst hy'
        rcases List.mem_cons.mp hp with rfl | hpxs
        · exact le_refl _
        · exact le_trans (le_of_lt (not_le.mp h)) (lastMin_le xs z hlm p hpxs)

/-- The code-side least-frequent value equals the amended specification's
last-encountered minimum. -/
theorem lfipResult_eq_lastMin (st : PState) :
    lfipResult st = lastMin st.ip_counter := by
  rw [lfipResult]
  by_cases h : st.ip_counter = []
  · rw [if_pos h, h]
    rfl
  · rw [if_neg h, getLast?_sortByCountDesc]

/-- C4 (amended): whenever least-frequent-IP is requested and `get_results`
returns a result, its `lfip` entry is the minimum-count pair with ties broken
by the last-encountered insertion order (`lastMin`), and that pair's count is
minimal over the counter; an empty counter yields the absent value `none`
(since `lastMin [] = none`). -/
theorem c4_amended_lfip_last_min (args : Args) (st : PState) (r : ResultMap)
    (hl : args.lfip = true) (hok : (get_results args st).1 = .ok r) :
    r.lfip = some (lastMin st.ip_counter) ∧
    ∀ y, lastMin st.ip_counter = some y → ∀ p ∈ st.ip_counter, y.2 ≤ p.2 := by
  refine ⟨?_, fun y hy p hp => lastMin_le st.ip_counter y hy p hp⟩
  simp only [get_results] at hok
  by_cases he : args.eps
  · rw [if_pos he] at hok
    rcases hE : epsResult st with e | q
    · rw [hE] at hok
      exact absurd hok (by simp)
    · rw [hE] at hok
      have hr := Except.ok.inj hok
      rw [← hr]
      simp [hl, lfipResult_eq_lastMin]
  · rw [if_neg he] at hok
    have hr := Except.ok.inj hok
    rw [← hr]
    simp [hl, lfipResult_eq_lastMin]

/-- Witness for `c4_amended_lfip_last_min` at the two-IP tie state. -/
theorem c4_amended_lfip_last_min_witness :
    argsLfip.lfip = true ∧ (get_results argsLfip st4).1 = .ok res4 ∧
    (res4.lfip = some (lastMin st4.ip_counter) ∧
      ∀ y, lastMin st4.ip_counter = some y →
        ∀ p ∈ st4.ip_counter, y.2 ≤ p.2) :=
  ⟨rfl, rfl, c4_amended_lfip_last_min argsLfip st4 res4 rfl rfl⟩

/-- With the bytes metric requested, one record step adds its header and
response sizes to the local byte total. -/
theorem stepEntry_bytes (args : Args) (loc : LocalState) (e : LogEntry)
    (hb : args.bytes = true) :
    (stepEntry args loc e).bytes =
      loc.bytes + (e.response_header_size + e.response_size) := by
  cases hml : (args.mfip || args.lfip) <;> cases hep : args.eps <;>
    simp [stepEntry, hb, hml, hep]

/-- With the bytes metric requested, the line loop adds the byte
contributions of its lines to the local byte total. -/
theorem scanLines_bytes (args : Args) (hb : args.bytes = true) :
    ∀ (lines : List Line) (loc loc' : LocalState),
      scanLines args lines loc = .ok loc' →
      loc'.bytes = loc.bytes + (lines.map lineBytes).sum := by
  intro lines
  induction lines with
  | nil =>
    intro loc loc' h
    simp only [scanLines] at h
    have := Except.ok.inj h
    subst this
    simp
  | cons line rest ih =>
    intro loc loc' h
    rcases hp : parse_line line with e | o
    · simp [scanLines, hp] at h
    · rcases o with _ | entry
      · simp only [scanLines, hp] at h
        rw [ih loc loc' h]
        simp [lineBytes, hp]
      · simp only [scanLines, hp] at h
        rw [ih (stepEntry args loc entry) loc' h,
          stepEntry_bytes args loc entry hb]
        simp [lineBytes, hp]
        omega

/-- With the bytes metric requested, a completing `process_file` call adds
the file's byte contribution to the shared byte total. -/
theorem process_file_bytes (args : Args) (st : PState) (f : PyFile)
    (st' : PState) (hb : args.bytes = true)
    (h : process_file args st f = .ok st') :
    st'.total_bytes = st.total_bytes + fileBytes f := by
  simp only [process_file] at h
  rcases hs : scanLines args f initLocal with e | loc
  · rw [hs] at h
    exact absurd h (by simp)
  · simp only [hs] at h
    have hloc := scanLines_bytes args hb f initLocal loc hs
    simp only [initLocal] at hloc
    by_cases he : args.eps
    · rw [if_pos he] at h
      rcases hme : mergeEarliest st.earliest_timestamp loc.earliest with e | ne
      · rw [hme] at h
        exact absurd h (by simp)
      · rw [hme] at h
        rcases hmt : mergeLatest st.latest_timestamp loc.latest with e | nl
        · rw [hmt] at h
          exact absurd h (by simp)
        · rw [hmt] at h
          have hr := Except.ok.inj h
          rw [← hr]
          simp [fileBytes]
          omega
    · rw [if_neg he] at h
      have hr := Except.ok.inj h
      rw [← hr]
      simp [fileBytes]
      omega

/-- With the bytes metric requested, the file loop adds the files' byte
contributions to the shared byte total. -/
theorem process_logs_from_bytes (args : Args) (hb : args.bytes = true) :
    ∀ (files : List PyFile) (st st' : PState),
      process_logs_from args files st = .ok st' →
      st'.total_bytes = st.total_bytes + (files.map fileBytes).sum := by
  intro files
  induction files with
  | nil =>
    intro st st' h
    simp only [process_logs_from] at h
    have := Except.ok.inj h
    subst this
    simp
  | cons f fs ih =>
    intro st st' h
    rcases hf : process_file args st f with e | st1
    · simp [process_logs_from, hf] at h
    · simp only [process_logs_from, hf] at h
      rw [ih st1 st' h, process_file_bytes args st f st1 hb hf]
      simp
      omega

/-- C9 (amended): the parsed byte counts are integers of either sign (see the
counterexample for a negative one), and for every completing run with the
bytes metric requested the accumulated `totalBytes` equals the integer sum of
`responseHeaderSize + responseSize` over all valid records of all inputs. -/
theorem c9_amended_total_bytes (args : Args) (files : List PyFile)
    (st : PState) (hb : args.bytes = true)
    (hrun : process_logs args files = .ok st) :
    st.total_bytes = (files.map fileBytes).sum := by
  have := process_logs_from_bytes args hb files initState st hrun
  simpa [initState] using this

/-- Witness for `c9_amended_total_bytes` at the one-file run whose single
record has the negative header size -5, giving the negative total -2. -/
theorem c9_amended_total_bytes_witness :
    argsBytes.bytes = true ∧
    process_logs argsBytes [[negLine]] = .ok stNeg ∧
    stNeg.total_bytes = ([[negLine]].map fileBytes).sum :=
  ⟨rfl, by with_unfolding_all rfl,
    c9_amended_total_bytes argsBytes [[negLine]] stNeg rfl
      (by with_unfolding_all rfl)⟩
